import Mathlib

/-
  Verification of the beancounter audit pipeline against its specification.

  Shallow embedding of the Go sources:
  - accounter/accounter.go   (ledger, balance, recvWork frontier updates)
  - main.go                  (doComputeBalance block-height resolution)
  - blockfinder (searchSync) (median of 11 block-header timestamps)
  - backend/fixture_backend.go (request handling on fixture misses)
  - backend/electrum_backend.go (cacheTxs tx-height cache)

  Go maps are modelled as association lists (first occurrence wins, as a Go
  map holds at most one entry per key); Go map assignment is modelled by
  replace-first-or-append.  uint32 arithmetic is modelled on Nat with an
  explicit `% 2 ^ 32`.  Functions that can call panic / log.Panicf return an
  Option, with `none` standing for the fatal abort.
-/

set_option autoImplicit false

namespace Beancounter

/-- First-match lookup in an association list; models reading a Go map. -/
def lookupKV {α β : Type} [DecidableEq α] : List (α × β) → α → Option β
  | [], _ => none
  | (k, v) :: rest, key => if k = key then some v else lookupKV rest key

/-- Replace-first-or-append; models Go map assignment `m[k] = v`. -/
def insertKV {α β : Type} [DecidableEq α] : List (α × β) → α → β → List (α × β)
  | [], k, v => [(k, v)]
  | (k2, v2) :: rest, k, v =>
    if k2 = k then (k, v) :: rest else (k2, v2) :: insertKV rest k v

/-- Reduction modulo 2^32; models Go uint32 arithmetic. -/
def u32 (n : Nat) : Nat := n % 2 ^ 32

namespace Accounter

/-- Transaction input: reference to a previous output (accounter.go `vin`). -/
structure Vin where
  prevHash : String
  index : Nat
deriving DecidableEq, Repr

/-- Transaction output (accounter.go `vout`): value in satoshis, output
script rendered as hex, ownership flag, and the hash of the spending
transaction once the debit pass links a spend. -/
structure Vout where
  value : Int
  address : String
  ours : Bool
  spentBy : Option String
deriving DecidableEq, Repr

/-- Ledger transaction (accounter.go `transaction`). -/
structure Transaction where
  height : Int
  hex : String
  vin : List Vin
  vout : List Vout
deriving DecidableEq, Repr

/-- The Accounter's `transactions` map: tx-hash to transaction. -/
abbrev Ledger := List (String × Transaction)

/-- Height filter of `processTransactions` (accounter.go lines 114-126):
an entry is deleted when `tx.height > int64(a.blockHeight)` or
`tx.height <= 0`; both branches only log, neither aborts. -/
def filterTransactions (blockHeight : Nat) (l : Ledger) : Ledger :=
  l.filter fun e =>
    !(decide (e.2.height > (blockHeight : Int))) && !(decide (e.2.height ≤ 0))

/-- Set `spentBy` on the output at position `i`; models the Go assignment
`prev.vout[txin.index].spentBy = &hash` through the shared backing array. -/
def setSpentBy : List Vout → Nat → String → List Vout
  | [], _, _ => []
  | v :: vs, 0, h => { v with spentBy := some h } :: vs
  | v :: vs, n + 1, h => v :: setSpentBy vs n h

/-- Apply `setSpentBy` to the (first) ledger entry for key `p`. -/
def updateSpentBy : Ledger → String → Nat → String → Ledger
  | [], _, _, _ => []
  | (k, t) :: rest, p, i, h =>
    if k = p then (k, { t with vout := setSpentBy t.vout i h }) :: rest
    else (k, t) :: updateSpentBy rest p i h

/-- Credit contribution of one transaction: the values of its owned outputs
(accounter.go lines 174-180). -/
def creditOf (tx : Transaction) : Int :=
  (tx.vout.map fun v => if v.ours then v.value else 0).sum

/-- The credit pass: sum of owned output values over all retained
transactions. -/
def credits (l : Ledger) : Int :=
  (l.map fun e => creditOf e.2).sum

/-- One step of the debit pass (accounter.go lines 191-207), for the input
`txin` of the transaction with hash `hash`.  The state is the evolving
ledger (which accumulates spent-by links through the shared vout arrays)
together with the running balance.  `none` models the two panics:
`prev index > vouts` and the double-spend `log.Panicf`.  (In the source
the subtraction happens before the double-spend check; as the panic
discards the balance the two are observationally equal.) -/
def spendInput (l : Ledger) (b : Int) (hash : String) (txin : Vin) :
    Option (Ledger × Int) :=
  match lookupKV l txin.prevHash with
  | none => some (l, b)
  | some prev =>
    if hlen : txin.index < prev.vout.length then
      if (prev.vout.get ⟨txin.index, hlen⟩).ours then
        match (prev.vout.get ⟨txin.index, hlen⟩).spentBy with
        | some _ => none
        | none =>
          some (updateSpentBy l txin.prevHash txin.index hash,
                b - (prev.vout.get ⟨txin.index, hlen⟩).value)
      else some (l, b)
    else none

/-- The debit pass over the inputs of one transaction. -/
def spendInputs (hash : String) : List Vin → Ledger → Int →
    Option (Ledger × Int)
  | [], l, b => some (l, b)
  | txin :: rest, l, b =>
    match spendInput l b hash txin with
    | none => none
    | some (l2, b2) => spendInputs hash rest l2 b2

/-- The debit pass over all retained transactions (accounter.go 190-208).
The entry list is iterated as captured at loop start (only `vin` and the
hash are read from it, and the pass never mutates either); the lookups go
through the evolving ledger. -/
def debits : List (String × Transaction) → Ledger → Int →
    Option (Ledger × Int)
  | [], l, b => some (l, b)
  | (hash, tx) :: rest, l, b =>
    match spendInputs hash tx.vin l b with
    | none => none
    | some (l2, b2) => debits rest l2 b2

/-- The `balance` method (accounter.go lines 166-214): credit pass, debit
pass, negative-balance panic, and conversion to uint64.  `none` models any
of the panics. -/
def balance (l : Ledger) : Option Nat :=
  match debits l l (credits l) with
  | none => none
  | some st => if st.2 < 0 then none else some st.2.toNat

/-- The output at position `(p, i)` of the ledger, if `p` is a retained
transaction with at least `i + 1` outputs. -/
def outAt (st : Ledger) (p : String) (i : Nat) : Option Vout :=
  match lookupKV st p with
  | none => none
  | some prev => prev.vout.get? i

/-- Spend-insensitive part of an output: its value and ownership flag. -/
def vshape (v : Vout) : Int × Bool := (v.value, v.ours)

/-- Value debited for one input, read off the ledger: the value of the
referenced output when that output exists and is owned, else zero. -/
def debitOf (st : Ledger) (txin : Vin) : Int :=
  match outAt st txin.prevHash txin.index with
  | some v => if v.ours then v.value else 0
  | none => 0

/-- Specification-side debit sum: over every retained transaction and every
input, the value of the referenced owned retained output. -/
def specDebits (l : Ledger) : Int :=
  (l.map fun e => (e.2.vin.map (debitOf l)).sum).sum

/-- The output `(p, i)` exists and is owned. -/
def ownedAt (st : Ledger) (p : String) (i : Nat) : Prop :=
  ∃ v, outAt st p i = some v ∧ v.ours = true

/-- Whether the output `(p, i)` has been linked to a spending transaction. -/
def spentFlag (st : Ledger) (p : String) (i : Nat) : Bool :=
  match outAt st p i with
  | some v => v.spentBy.isSome
  | none => false

/-- `spentFlag` as a number, for counting. -/
def flagN (st : Ledger) (p : String) (i : Nat) : Nat :=
  if spentFlag st p i then 1 else 0

/-- Number of inputs, across all retained transactions, that reference the
output `(p, i)`. -/
def consumeCount (entries : List (String × Transaction)) (p : String)
    (i : Nat) : Nat :=
  (entries.map fun e =>
    e.2.vin.countP fun txin =>
      decide (txin.prevHash = p ∧ txin.index = i)).sum

/-- A response received by `recvWork` (accounter.go lines 242-306): either
an address response (with the stream bit, derivation index and script of
the address, and its transaction hashes) or a transaction response.  The
stream bit is `false` for receive (change 0) and `true` for change
(change 1). -/
inductive BackendEvent where
  | addrResp (change : Bool) (index : Nat) (script : String)
      (txHashes : List String)
  | txResp (hash : String) (height : Int) (hexStr : String)
deriving DecidableEq, Repr

/-- The Accounter fields touched by `recvWork`: the `addresses` map (script
to tx-hashes), the `transactions` map, the two per-stream frontiers
`lastAddresses`, and the counters. -/
structure AState where
  addresses : List (String × List String)
  transactions : Ledger
  lastAddresses : Nat × Nat
  processedAddrCount : Nat
  seenTxCount : Nat
  processedTxCount : Nat
deriving DecidableEq, Repr

/-- Frontier of stream `c`: `lastAddresses[0]` or `lastAddresses[1]`. -/
def frontier (s : AState) (c : Bool) : Nat :=
  if c then s.lastAddresses.2 else s.lastAddresses.1

/-- One iteration of the `recvWork` select loop (accounter.go 242-306).
On an address response: count it, store the history, count the tx-hashes
not yet present in `transactions` (each triggers a `TxRequest`), and when
the response has transactions advance the frontier of its stream to
`Max(lastAddresses[change], index + lookahead)` (line 277, uint32
arithmetic).  On a transaction response: count it and store the
transaction with empty `vin` / `vout`. -/
def recvStep (lookahead : Nat) (s : AState) (e : BackendEvent) : AState :=
  match e with
  | .addrResp change index script txHashes =>
    let s1 : AState :=
      { s with
        processedAddrCount := u32 (s.processedAddrCount + 1),
        addresses := insertKV s.addresses script txHashes,
        seenTxCount := u32 (s.seenTxCount +
          txHashes.countP fun h2 => (lookupKV s.transactions h2).isNone) }
    if 0 < txHashes.length then
      if change then
        { s1 with lastAddresses :=
            (s1.lastAddresses.1,
             Nat.max s1.lastAddresses.2 (u32 (index + lookahead))) }
      else
        { s1 with lastAddresses :=
            (Nat.max s1.lastAddresses.1 (u32 (index + lookahead)),
             s1.lastAddresses.2) }
    else s1
  | .txResp hash height hexStr =>
    { s with
      processedTxCount := u32 (s.processedTxCount + 1),
      transactions := insertKV s.transactions hash
        { height := height, hex := hexStr, vin := [], vout := [] } }

/-- Initial state built by `New` (accounter.go lines 75-88):
`lastAddresses = [lookahead, lookahead]`, empty maps, zero counters. -/
def initState (lookahead : Nat) : AState :=
  { addresses := []
    transactions := []
    lastAddresses := (lookahead, lookahead)
    processedAddrCount := 0
    seenTxCount := 0
    processedTxCount := 0 }

/-- Process a sequence of backend responses from the initial state. -/
def run (lookahead : Nat) (evs : List BackendEvent) : AState :=
  evs.foldl (recvStep lookahead) (initState lookahead)

/-- The hex-decode / parse phase of `processTransactions` (accounter.go
lines 133-163).  `hexDecode` models Go `hex.DecodeString`, which returns
the bytes decoded before any error together with a success flag; the code
only prints on a decode error and still hands the partial bytes to the
parser.  `parseTx` models `btcutil.NewTxFromBytes`, returning the inputs
and the `(value, pkScript-hex)` outputs; on a parse error the code prints
and `continue`s, leaving the transaction with its empty `vin` / `vout`.
On success each output is marked `ours` iff its script is a key of the
`addresses` map, with `spentBy = nil`. -/
def parsePhase (addresses : List String)
    (hexDecode : String → List Nat × Bool)
    (parseTx : List Nat → Option (List Vin × List (Int × String)))
    (l : Ledger) : Ledger :=
  l.map fun e =>
    let b := (hexDecode e.2.hex).1
    match parseTx b with
    | none => e
    | some (vins, vouts) =>
      (e.1, { e.2 with
        vin := e.2.vin ++ vins,
        vout := e.2.vout ++ vouts.map fun vo =>
          { value := vo.1, address := vo.2,
            ours := addresses.contains vo.2, spentBy := none } })

/-- Full `processTransactions` (accounter.go lines 114-164): height filter
followed by the parse phase.  Total: neither phase has an abort path. -/
def processTransactions (blockHeight : Nat) (addresses : List String)
    (hexDecode : String → List Nat × Bool)
    (parseTx : List Nat → Option (List Vin × List (Int × String)))
    (l : Ledger) : Ledger :=
  parsePhase addresses hexDecode parseTx (filterTransactions blockHeight l)

end Accounter

namespace Blockfinder

/-- The block heights requested by one `searchSync(height)` evaluation
(blockfinder, `for i := height - 5; i <= height + 5; i++` over uint32):
the run of consecutive values from `height - 5` to `height + 5` computed
modulo 2^32.  When the wrapped start exceeds the wrapped stop the Go loop
body never runs, matching the truncated subtraction in the length.  (For
`stop = 2^32 - 1` the Go loop would not terminate; no terminating run
reaches that case and the theorems assume `height + 5 < 2^32`.) -/
def searchSyncRequests (height : Nat) : List Nat :=
  let start := (height + 2 ^ 32 - 5) % 2 ^ 32
  let stop := (height + 5) % 2 ^ 32
  List.range' start (stop + 1 - start)

/-- The median computed by `searchSync` from the 11 collected header
timestamps: sort ascending, take index 5 (`timestamps[5]`).  The source
always collects exactly 11 responses before indexing. -/
def searchSync (timestamps : List Int) : Int :=
  (timestamps.insertionSort (· ≤ ·)).getD 5 0

end Blockfinder

namespace FixtureBackend

/-- Address history response (backend.go `AddrResponse`), with the address
modelled by its textual form. -/
structure AddrResponse where
  address : String
  txHashes : List String
deriving DecidableEq, Repr

/-- Raw transaction response (backend.go `TxResponse`). -/
structure TxResponse where
  hash : String
  height : Int
  hex : String
deriving DecidableEq, Repr

/-- Block header response (backend.go `BlockResponse`), with the timestamp
as Unix seconds. -/
structure BlockResponse where
  height : Nat
  timestamp : Int
deriving DecidableEq, Repr

/-- The fixture backend's in-memory indexes loaded from the JSON file
(fixture_backend.go). -/
structure Fixture where
  addrIndex : List (String × AddrResponse)
  txIndex : List (String × TxResponse)
  blockIndex : List (Nat × BlockResponse)
deriving DecidableEq, Repr

/-- `processAddrRequest` (fixture_backend.go lines 150-164): a hit sends
the stored response; a miss sends exactly one response with the requested
address and no tx-hashes.  The returned list holds the emitted responses. -/
def processAddrRequest (b : Fixture) (addr : String) : List AddrResponse :=
  match lookupKV b.addrIndex addr with
  | some resp => [resp]
  | none => [{ address := addr, txHashes := [] }]

/-- `processTxRequest` (fixture_backend.go lines 166-177): a hit sends the
stored response; a miss sends nothing. -/
def processTxRequest (b : Fixture) (txHash : String) : List TxResponse :=
  match lookupKV b.txIndex txHash with
  | some resp => [resp]
  | none => []

/-- `processBlockRequest` (fixture_backend.go lines 179-189): a hit sends
the stored response; a miss calls `log.Panicf`, modelled by `none`. -/
def processBlockRequest (b : Fixture) (height : Nat) :
    Option (List BlockResponse) :=
  match lookupKV b.blockIndex height with
  | some resp => some [resp]
  | none => none

end FixtureBackend

namespace ElectrumBackend

/-- `cacheTxs` (electrum backend): for each `(hash, height)` pair from an
address history, panic (`none`) when the hash is cached with a different
height, otherwise write the pair into the cache. -/
def cacheTxs : List (String × Int) → List (String × Int) →
    Option (List (String × Int))
  | [], cache => some cache
  | (h2, ht) :: rest, cache =>
    match lookupKV cache h2 with
    | some old =>
      if old ≠ ht then none else cacheTxs rest (insertKV cache h2 ht)
    | none => cacheTxs rest (insertKV cache h2 ht)

end ElectrumBackend

namespace Main

/-- Number of confirmations required (main.go `minConfirmations`). -/
def minConfirmations : Nat := 6

/-- Go uint32 subtraction `a - b` with wraparound, for `b ≤ 2^32`. -/
def u32sub (a b : Nat) : Nat := (a + 2 ^ 32 - b) % 2 ^ 32

/-- Block-height resolution in `doComputeBalance` (main.go lines 233-239):
a flag value of 0 is replaced by `ChainHeight() - minConfirmations`; then
any height above `ChainHeight() - minConfirmations` is fatal
(`log.Panicf`, modelled by `none`). -/
def resolveBlockHeight (flagHeight tip : Nat) : Option Nat :=
  let h := if flagHeight = 0 then u32sub tip minConfirmations else flagHeight
  if h > u32sub tip minConfirmations then none else some h

end Main

namespace Examples

open Accounter

/-- A funding transaction with one owned 100-satoshi output. -/
def tx1 : Transaction :=
  { height := 1, hex := "aa", vin := [],
    vout := [{ value := 100, address := "s1", ours := true,
               spentBy := none }] }

/-- A transaction spending the single output of `tx1` and paying 60
satoshis to an owned output. -/
def tx2 : Transaction :=
  { height := 2, hex := "bb",
    vin := [{ prevHash := "t1", index := 0 }],
    vout := [{ value := 60, address := "s2", ours := true,
               spentBy := none }] }

/-- A two-transaction ledger: 160 satoshis of credits, 100 of debits. -/
def exLedger : Ledger := [("t1", tx1), ("t2", tx2)]

/-- The ledger after the debit pass has linked the spend of `(t1, 0)`. -/
def exLedger2 : Ledger :=
  [("t1", { tx1 with vout := [{ value := 100, address := "s1",
                                ours := true, spentBy := some "t2" }] }),
   ("t2", tx2)]

/-- Events driving the gap-extension counterexample: a transaction is seen
for the receive-stream address at index 43, then its body arrives. -/
def c2events : List BackendEvent :=
  [.addrResp false 43 "s" ["h"], .txResp "h" 1 "aa"]

/-- A fetched transaction with the forbidden negative height. -/
def c3tx : Transaction := { height := -1, hex := "zz", vin := [], vout := [] }

/-- Models `hex.DecodeString` on a malformed string: one byte was decoded
before the error, and the error flag is set. -/
def badHexDecode : String → List Nat × Bool := fun _ => ([0], false)

/-- Models a parser (`btcutil.NewTxFromBytes`) that accepts the partially
decoded byte and yields one 7-satoshi output to script `aa`; the real
parser behaves this way whenever the bytes decoded before the error form a
valid serialized transaction, since it ignores trailing bytes. -/
def badParseTx : List Nat → Option (List Vin × List (Int × String)) :=
  fun b => if b = [0] then some ([], [(7, "aa")]) else none

/-- A transaction whose raw hex fails to decode under `badHexDecode`. -/
def c10tx : Transaction := { height := 1, hex := "zz", vin := [], vout := [] }

/-- What `c10tx` becomes when the partially decoded bytes parse. -/
def c10parsed : Transaction :=
  { height := 1, hex := "zz", vin := [],
    vout := [{ value := 7, address := "aa", ours := true, spentBy := none }] }

/-- A parser that rejects everything, for the parse-failure witness. -/
def rejectParseTx : List Nat → Option (List Vin × List (Int × String)) :=
  fun _ => none

end Examples

end Beancounter

namespace Beancounter

theorem lookupKV_insertKV_self {α β : Type} [DecidableEq α]
    (l : List (α × β)) (k : α) (v : β) (h : lookupKV l k = some v) :
    insertKV l k v = l := by
  induction l with
  | nil => simp [lookupKV] at h
  | cons hd tl ih =>
    obtain ⟨k2, v2⟩ := hd
    by_cases hk : k2 = k
    · subst hk
      simp [lookupKV] at h
      simp [insertKV, h]
    · simp [lookupKV, hk] at h
      simp [insertKV, hk, ih h]

open Accounter Blockfinder FixtureBackend ElectrumBackend Main Examples

/-- Claim C8: re-observing a tx-hash in the cache with the height it is
already cached at leaves the cache unchanged, while re-observing it with a
different height aborts fatally. -/
theorem cacheTxs_spec (cache : List (String × Int)) (h2 : String)
    (v v2 : Int) (rest : List (String × Int))
    (hc : lookupKV cache h2 = some v) :
    cacheTxs ((h2, v) :: rest) cache = cacheTxs rest cache
    ∧ (v2 ≠ v → cacheTxs ((h2, v2) :: rest) cache = none) := by
  constructor
  · simp [cacheTxs, hc, lookupKV_insertKV_self cache h2 v hc]
  · intro hne
    simp [cacheTxs, hc, Ne.symm hne]

/-- Witness for C8: a cache holding hash H at height 100 aborts when H is
re-observed at height 102. -/
theorem cacheTxs_spec_witness :
    cacheTxs [("H", 102)] [("H", 100)] = none :=
  (cacheTxs_spec [("H", 100)] "H" 100 102 [] (by decide)).2 (by decide)

/-- Claim C7: on the fixture backend, an unknown address yields exactly one
empty-history response, an unknown tx request yields no response, and an
unknown block request aborts fatally. -/
theorem fixture_unknown_request_spec (b : Fixture) (addr txHash : String)
    (height : Nat)
    (ha : lookupKV b.addrIndex addr = none)
    (ht : lookupKV b.txIndex txHash = none)
    (hb : lookupKV b.blockIndex height = none) :
    processAddrRequest b addr = [{ address := addr, txHashes := [] }]
    ∧ processTxRequest b txHash = []
    ∧ processBlockRequest b height = none := by
  refine ⟨?_, ?_, ?_⟩ <;>
    simp [processAddrRequest, processTxRequest, processBlockRequest,
      ha, ht, hb]

/-- Witness for C7: the empty fixture treats every request as unknown. -/
theorem fixture_unknown_request_spec_witness :
    processAddrRequest ⟨[], [], []⟩ "a" = [{ address := "a", txHashes := [] }]
    ∧ processTxRequest ⟨[], [], []⟩ "t" = []
    ∧ processBlockRequest ⟨[], [], []⟩ 5 = none :=
  fixture_unknown_request_spec ⟨[], [], []⟩ "a" "t" 5 rfl rfl rfl

/-- Counterexample to claim C5: with chain tip 100, a `--block-height` of 0
is replaced by 94 = tip − 6, not by tip − 6 + 1 = 95; and the height 95,
which the claim says is within bounds, is fatal. -/
theorem resolveBlockHeight_cex :
    resolveBlockHeight 0 100 = some 94
    ∧ 94 ≠ 100 - minConfirmations + 1
    ∧ resolveBlockHeight 95 100 = none
    ∧ 95 ≤ 100 - minConfirmations + 1 := by decide

/-- Claim C5 (amended): a `--block-height` of 0 is replaced by chain tip −
6 (confirmations), and any requested height exceeding tip − 6 is fatal. -/
theorem resolveBlockHeight_spec (flagHeight tip : Nat)
    (h6 : minConfirmations ≤ tip) (hlt : tip < 2 ^ 32) :
    resolveBlockHeight 0 tip = some (tip - minConfirmations)
    ∧ (flagHeight ≠ 0 → flagHeight ≤ tip - minConfirmations →
        resolveBlockHeight flagHeight tip = some flagHeight)
    ∧ (flagHeight ≠ 0 → tip - minConfirmations < flagHeight →
        resolveBlockHeight flagHeight tip = none) := by
  have hsub : u32sub tip minConfirmations = tip - minConfirmations := by
    unfold u32sub
    have harith : tip + 2 ^ 32 - minConfirmations
        = (tip - minConfirmations) + 2 ^ 32 := by omega
    rw [harith, Nat.add_mod_right, Nat.mod_eq_of_lt (by omega)]
  refine ⟨?_, ?_, ?_⟩
  · simp [resolveBlockHeight, hsub]
  · intro hne hle
    simp [resolveBlockHeight, hsub, hne, Nat.not_lt.mpr hle]
  · intro hne hgt
    simp [resolveBlockHeight, hsub, hne, hgt]

/-- Witness for C5 (amended): tip 100, requested height 50 is accepted. -/
theorem resolveBlockHeight_spec_witness :
    resolveBlockHeight 50 100 = some 50 :=
  (resolveBlockHeight_spec 50 100 (by decide) (by decide)).2.1
    (by decide) (by decide)

/-- Counterexample to claim C3: a fetched transaction with height −1 is
silently removed by the filter (the run continues), although the claim
says only heights above the target or equal to 0 are removed and negative
heights abort. -/
theorem filter_negative_height_cex :
    filterTransactions 10 [("h", c3tx)] = []
    ∧ ¬(c3tx.height > (10 : Int) ∨ c3tx.height = 0) := by decide

/-- Claim C3 (amended): the post-fetch filter retains exactly the fetched
transactions with 0 < height ≤ target; any transaction with height ≤ 0,
negative heights included, is silently removed, and no height aborts. -/
theorem filterTransactions_spec (blockHeight : Nat) (l : Ledger)
    (e : String × Transaction) :
    e ∈ filterTransactions blockHeight l
      ↔ e ∈ l ∧ 0 < e.2.height ∧ e.2.height ≤ (blockHeight : Int) := by
  simp only [filterTransactions, List.mem_filter, Bool.and_eq_true,
    Bool.not_eq_true', decide_eq_false_iff_not, not_lt, not_le]
  constructor
  · rintro ⟨hm, hle, hpos⟩
    exact ⟨hm, by omega, by omega⟩
  · rintro ⟨hm, hpos, hle⟩
    exact ⟨hm, by omega, by omega⟩

/-- Linking a spend only rewrites the vout list of the first entry with
the spent transaction's hash; every lookup is otherwise unchanged. -/
theorem lookupKV_updateSpentBy (l : Ledger) (p : String) (i : Nat)
    (h : String) (q : String) :
    lookupKV (updateSpentBy l p i h) q
      = if p = q then
          (lookupKV l q).map fun t =>
            { t with vout := setSpentBy t.vout i h }
        else lookupKV l q := by
  induction l with
  | nil =>
    simp only [updateSpentBy, lookupKV]
    split <;> rfl
  | cons hd tl ih =>
    obtain ⟨k, t⟩ := hd
    by_cases hk : k = p
    · subst hk
      by_cases hq : k = q
      · subst hq
        simp [updateSpentBy, lookupKV]
      · simp [updateSpentBy, lookupKV, hq, Ne.symm hq]
    · by_cases hq : k = q
      · subst hq
        have hpq : ¬(p = k) := fun hcon => hk hcon.symm
        simp [updateSpentBy, lookupKV, hk, hpq]
      · simp [updateSpentBy, lookupKV, hk, hq, ih]

/-- `setSpentBy` only touches position `i`, where it sets the spender. -/
theorem setSpentBy_getElem? (l : List Vout) (i j : Nat) (h : String) :
    (setSpentBy l i h)[j]?
      = if i = j then
          (l[j]?).map fun v => { v with spentBy := some h }
        else l[j]? := by
  induction l generalizing i j with
  | nil => cases i <;> cases j <;> simp [setSpentBy]
  | cons v vs ih =>
    cases i with
    | zero => cases j <;> simp [setSpentBy]
    | succ n =>
      cases j with
      | zero => simp [setSpentBy]
      | succ m => simpa [setSpentBy] using ih n m

/-- Effect of one spend link on an arbitrary output slot: the linked slot
gains its spender, every other slot is untouched. -/
theorem outAt_updateSpentBy (st : Ledger) (p : String) (i : Nat)
    (h : String) (q : String) (j : Nat) :
    outAt (updateSpentBy st p i h) q j
      = if p = q ∧ i = j then
          (outAt st q j).map fun v => { v with spentBy := some h }
        else outAt st q j := by
  unfold outAt
  rw [lookupKV_updateSpentBy]
  by_cases hpq : p = q
  · subst hpq
    cases hlk : lookupKV st p with
    | none => simp
    | some t =>
      by_cases hij : i = j
      · subst hij
        simp [setSpentBy_getElem?]
      · simp [setSpentBy_getElem?, hij]
  · simp [hpq]

/-- A spend link changes neither the value nor the ownership flag of any
slot. -/
theorem outAt_updateSpentBy_vshape (st : Ledger) (p : String) (i : Nat)
    (h : String) (q : String) (j : Nat) :
    (outAt (updateSpentBy st p i h) q j).map vshape
      = (outAt st q j).map vshape := by
  rw [outAt_updateSpentBy]
  split
  · cases outAt st q j <;> simp [vshape]
  · rfl

/-- The per-input debit only reads values and ownership flags, so two
ledgers with the same slot shapes yield the same debit. -/
theorem debitOf_congr (st st2 : Ledger)
    (hsh : ∀ q j, (outAt st2 q j).map vshape = (outAt st q j).map vshape)
    (txin : Vin) :
    debitOf st2 txin = debitOf st txin := by
  have hpt := hsh txin.prevHash txin.index
  unfold debitOf
  cases h2 : outAt st2 txin.prevHash txin.index with
  | none =>
    cases h1 : outAt st txin.prevHash txin.index with
    | none => rfl
    | some v => rw [h2, h1] at hpt; simp at hpt
  | some v2 =>
    cases h1 : outAt st txin.prevHash txin.index with
    | none => rw [h2, h1] at hpt; simp at hpt
    | some v1 =>
      rw [h2, h1] at hpt
      have hv : vshape v2 = vshape v1 := Option.some.inj hpt
      have hval : v2.value = v1.value := congrArg Prod.fst hv
      have hown : v2.ours = v1.ours := congrArg Prod.snd hv
      simp [hval, hown]

/-- Unfolding of `outAt` on a ledger hit. -/
theorem outAt_eq_of_lookup_some (l : Ledger) (p : String) (i : Nat)
    (prev : Transaction) (hlk : lookupKV l p = some prev) :
    outAt l p i = prev.vout.get? i := by
  unfold outAt
  rw [hlk]

/-- Unfolding of `outAt` on a ledger miss. -/
theorem outAt_eq_of_lookup_none (l : Ledger) (p : String) (i : Nat)
    (hlk : lookupKV l p = none) :
    outAt l p i = none := by
  unfold outAt
  rw [hlk]

/-- Unfolding of `debitOf` when the referenced slot exists. -/
theorem debitOf_of_outAt_some (l : Ledger) (txin : Vin) (v : Vout)
    (h : outAt l txin.prevHash txin.index = some v) :
    debitOf l txin = if v.ours then v.value else 0 := by
  unfold debitOf
  rw [h]

/-- Unfolding of `debitOf` when the referenced slot is absent. -/
theorem debitOf_of_outAt_none (l : Ledger) (txin : Vin)
    (h : outAt l txin.prevHash txin.index = none) :
    debitOf l txin = 0 := by
  unfold debitOf
  rw [h]

/-- Exhaustive description of a non-aborting debit step: either the input
references no owned retained output and the state is unchanged, or it
references an owned, not-yet-spent retained output, which becomes linked
while its value is subtracted. -/
theorem spendInput_cases (l : Ledger) (b : Int) (hash : String)
    (txin : Vin) (l2 : Ledger) (b2 : Int)
    (h : spendInput l b hash txin = some (l2, b2)) :
    (l2 = l ∧ b2 = b ∧ debitOf l txin = 0
      ∧ ¬ownedAt l txin.prevHash txin.index)
    ∨ (∃ v, outAt l txin.prevHash txin.index = some v ∧ v.ours = true
        ∧ v.spentBy = none
        ∧ l2 = updateSpentBy l txin.prevHash txin.index hash
        ∧ b2 = b - v.value ∧ debitOf l txin = v.value) := by
  unfold spendInput at h
  split at h
  next hlk =>
    have hout := outAt_eq_of_lookup_none l txin.prevHash txin.index hlk
    simp only [Option.some_inj, Prod.mk.injEq] at h
    left
    refine ⟨h.1.symm, h.2.symm, debitOf_of_outAt_none l txin hout, ?_⟩
    rintro ⟨v, hv, _⟩
    rw [hout] at hv
    exact absurd hv (by simp)
  next prev hlk =>
    split at h
    next hlen =>
      have hout : outAt l txin.prevHash txin.index
          = some (prev.vout.get ⟨txin.index, hlen⟩) := by
        rw [outAt_eq_of_lookup_some l txin.prevHash txin.index prev hlk]
        exact List.get?_eq_get hlen
      split at h
      next hours =>
        split at h
        next w hsp => exact absurd h (by simp)
        next hsp =>
          simp only [Option.some_inj, Prod.mk.injEq] at h
          right
          refine ⟨prev.vout.get ⟨txin.index, hlen⟩, hout, hours, hsp,
            h.1.symm, h.2.symm, ?_⟩
          rw [debitOf_of_outAt_some l txin _ hout, if_pos hours]
      next hours =>
        simp only [Option.some_inj, Prod.mk.injEq] at h
        left
        refine ⟨h.1.symm, h.2.symm, ?_, ?_⟩
        · rw [debitOf_of_outAt_some l txin _ hout, if_neg hours]
        · rintro ⟨v, hv, hvours⟩
          rw [hout] at hv
          injection hv with hv2
          rw [hv2] at hours
          exact hours hvours
    next hlen => exact absurd h (by simp)

/-- A non-aborting debit step preserves all slot shapes and subtracts
exactly the debit of its input. -/
theorem spendInput_shape (l : Ledger) (b : Int) (hash : String)
    (txin : Vin) (l2 : Ledger) (b2 : Int)
    (h : spendInput l b hash txin = some (l2, b2)) :
    (∀ q j, (outAt l2 q j).map vshape = (outAt l q j).map vshape)
    ∧ b2 = b - debitOf l txin := by
  rcases spendInput_cases l b hash txin l2 b2 h with
    ⟨hl, hb, hdeb, _⟩ | ⟨v, hout, hours, hsp, hl, hb, hdeb⟩
  · subst hl
    exact ⟨fun q j => rfl, by rw [hb, hdeb]; ring⟩
  · subst hl
    exact ⟨fun q j => outAt_updateSpentBy_vshape l txin.prevHash
      txin.index hash q j, by rw [hb, hdeb]⟩

/-- The debit pass over one input list preserves slot shapes and subtracts
the sum of the per-input debits, measured against the entry ledger. -/
theorem spendInputs_spec (hash : String) (vins : List Vin) (l : Ledger)
    (b : Int) (l2 : Ledger) (b2 : Int)
    (h : spendInputs hash vins l b = some (l2, b2)) :
    (∀ q j, (outAt l2 q j).map vshape = (outAt l q j).map vshape)
    ∧ b2 = b - (vins.map (debitOf l)).sum := by
  induction vins generalizing l b with
  | nil =>
    simp only [spendInputs, Option.some_inj, Prod.mk.injEq] at h
    rw [← h.1, ← h.2]
    exact ⟨fun q j => rfl, by simp⟩
  | cons txin rest ih =>
    simp only [spendInputs] at h
    cases hstep : spendInput l b hash txin with
    | none => rw [hstep] at h; exact absurd h (by simp)
    | some st1 =>
      obtain ⟨l1, b1⟩ := st1
      rw [hstep] at h
      have hs := spendInput_shape l b hash txin l1 b1 hstep
      have hr := ih l1 b1 h
      constructor
      · intro q j
        rw [hr.1 q j, hs.1 q j]
      · have hmap : rest.map (debitOf l1) = rest.map (debitOf l) :=
          List.map_congr_left fun txin2 _ =>
            debitOf_congr l l1 hs.1 txin2
        rw [hr.2, hmap] at *
        rw [hs.2]
        simp only [List.map_cons, List.sum_cons]
        ring

/-- The debit pass over all entries preserves slot shapes and subtracts
the specification debit sum measured against the starting ledger. -/
theorem debits_spec (entries : List (String × Transaction)) (l : Ledger)
    (b : Int) (l2 : Ledger) (b2 : Int)
    (h : debits entries l b = some (l2, b2)) :
    (∀ q j, (outAt l2 q j).map vshape = (outAt l q j).map vshape)
    ∧ b2 = b - (entries.map fun e => (e.2.vin.map (debitOf l)).sum).sum := by
  induction entries generalizing l b with
  | nil =>
    simp only [debits, Option.some_inj, Prod.mk.injEq] at h
    rw [← h.1, ← h.2]
    exact ⟨fun q j => rfl, by simp⟩
  | cons entry rest ih =>
    obtain ⟨hash, tx⟩ := entry
    simp only [debits] at h
    cases hstep : spendInputs hash tx.vin l b with
    | none => rw [hstep] at h; exact absurd h (by simp)
    | some st1 =>
      obtain ⟨l1, b1⟩ := st1
      rw [hstep] at h
      have hs := spendInputs_spec hash tx.vin l b l1 b1 hstep
      have hr := ih l1 b1 h
      constructor
      · intro q j
        rw [hr.1 q j, hs.1 q j]
      · have hmap :
            (rest.map fun e => (e.2.vin.map (debitOf l1)).sum)
              = rest.map fun e => (e.2.vin.map (debitOf l)).sum :=
          List.map_congr_left fun e _ => by
            have : e.2.vin.map (debitOf l1) = e.2.vin.map (debitOf l) :=
              List.map_congr_left fun txin2 _ =>
                debitOf_congr l l1 hs.1 txin2
            rw [this]
        rw [hr.2, hmap, hs.2]
        simp only [List.map_cons, List.sum_cons]
        ring

/-- Claim C1: a terminated `ComputeBalance` run returns exactly the sum of
owned output values over the retained transactions minus the sum of owned
retained output values referenced by inputs of retained transactions, and
that difference is non-negative; when the difference is negative the run
aborts instead of returning. -/
theorem computeBalance_spec (l : Ledger) :
    (∀ n, balance l = some n →
      (n : Int) = credits l - specDebits l ∧ 0 ≤ credits l - specDebits l)
    ∧ (credits l - specDebits l < 0 → balance l = none) := by
  constructor
  · intro n hn
    unfold balance at hn
    cases hd : debits l l (credits l) with
    | none => rw [hd] at hn; exact absurd hn (by simp)
    | some st =>
      obtain ⟨l2, b2⟩ := st
      rw [hd] at hn
      have hn2 : (if b2 < 0 then none else some b2.toNat) = some n := hn
      have hb2 : b2 = credits l - specDebits l :=
        (debits_spec l l (credits l) l2 b2 hd).2
      by_cases hneg : b2 < 0
      · rw [if_pos hneg] at hn2
        exact absurd hn2 (by simp)
      · rw [if_neg hneg] at hn2
        simp only [Option.some_inj] at hn2
        rw [← hn2, ← hb2]
        push_cast [Int.toNat_of_nonneg (not_lt.mp hneg)]
        exact ⟨rfl, not_lt.mp hneg⟩
  · intro hneg
    unfold balance
    cases hd : debits l l (credits l) with
    | none => rfl
    | some st =>
      obtain ⟨l2, b2⟩ := st
      have hb2 : b2 = credits l - specDebits l :=
        (debits_spec l l (credits l) l2 b2 hd).2
      show (if b2 < 0 then none else some b2.toNat) = none
      rw [if_pos (hb2 ▸ hneg)]

/-- Witness for C1: on the two-transaction example ledger the run returns
60 = 160 − 100. -/
theorem computeBalance_spec_witness :
    ((60 : Nat) : Int) = credits exLedger - specDebits exLedger
    ∧ 0 ≤ credits exLedger - specDebits exLedger :=
  (computeBalance_spec exLedger).1 60 (by decide)

/-- A spent-by flag is an indicator, so it is at most one. -/
theorem flagN_le_one (st : Ledger) (p : String) (i : Nat) :
    flagN st p i ≤ 1 := by
  unfold flagN
  split <;> omega

/-- Ownership of a slot only depends on the slot shapes. -/
theorem ownedAt_congr (st st2 : Ledger)
    (hsh : ∀ q j, (outAt st2 q j).map vshape = (outAt st q j).map vshape)
    (p : String) (i : Nat) (h : ownedAt st p i) : ownedAt st2 p i := by
  obtain ⟨v, hv, hours⟩ := h
  have hpt := hsh p i
  rw [hv] at hpt
  cases h2 : outAt st2 p i with
  | none => rw [h2] at hpt; exact absurd hpt (by simp)
  | some v2 =>
    rw [h2] at hpt
    have hvv : vshape v2 = vshape v := Option.some.inj hpt
    exact ⟨v2, h2,
      by rw [show v2.ours = v.ours from congrArg Prod.snd hvv, hours]⟩

/-- Effect of one non-aborting debit step on the spent-by flag of an owned
slot: the flag gains exactly the indicator of whether this input consumes
that slot. -/
theorem spendInput_flag (l : Ledger) (b : Int) (hash : String)
    (txin : Vin) (l2 : Ledger) (b2 : Int) (p : String) (i : Nat)
    (h : spendInput l b hash txin = some (l2, b2))
    (howned : ownedAt l p i) :
    flagN l2 p i = flagN l p i
      + (if txin.prevHash = p ∧ txin.index = i then 1 else 0) := by
  rcases spendInput_cases l b hash txin l2 b2 h with
    ⟨hl, _, _, hnot⟩ | ⟨v, hout, hours, hsp, hl, _, _⟩
  · subst hl
    have hind : ¬(txin.prevHash = p ∧ txin.index = i) := by
      rintro ⟨hp, hi⟩
      rw [hp, hi] at hnot
      exact hnot howned
    rw [if_neg hind]
    simp
  · subst hl
    by_cases hci : txin.prevHash = p ∧ txin.index = i
    · obtain ⟨hp, hi⟩ := hci
      rw [hp, hi] at hout
      have hslot : outAt (updateSpentBy l txin.prevHash txin.index hash)
          p i = some { v with spentBy := some hash } := by
        rw [outAt_updateSpentBy, if_pos ⟨hp, hi⟩, hout]
        rfl
      have hfl2 : flagN (updateSpentBy l txin.prevHash txin.index hash)
          p i = 1 := by
        unfold flagN spentFlag
        simp [hslot]
      have hfl : flagN l p i = 0 := by
        unfold flagN spentFlag
        simp [hout, hsp]
      rw [hfl2, hfl, if_pos ⟨hp, hi⟩]
    · have hslot : outAt (updateSpentBy l txin.prevHash txin.index hash)
          p i = outAt l p i := by
        rw [outAt_updateSpentBy, if_neg hci]
      have hpres : flagN (updateSpentBy l txin.prevHash txin.index hash)
          p i = flagN l p i := by
        unfold flagN spentFlag
        rw [hslot]
      rw [hpres, if_neg hci]
      simp

/-- Effect of the debit pass over one input list on the spent-by flag of
an owned slot: it gains the number of inputs consuming that slot. -/
theorem spendInputs_flag (hash : String) (vins : List Vin) (l : Ledger)
    (b : Int) (l2 : Ledger) (b2 : Int) (p : String) (i : Nat)
    (h : spendInputs hash vins l b = some (l2, b2))
    (howned : ownedAt l p i) :
    flagN l2 p i = flagN l p i
      + vins.countP fun txin =>
          decide (txin.prevHash = p ∧ txin.index = i) := by
  induction vins generalizing l b with
  | nil =>
    simp only [spendInputs, Option.some_inj, Prod.mk.injEq] at h
    rw [← h.1]
    simp
  | cons txin rest ih =>
    simp only [spendInputs] at h
    cases hstep : spendInput l b hash txin with
    | none => rw [hstep] at h; exact absurd h (by simp)
    | some st1 =>
      obtain ⟨l1, b1⟩ := st1
      rw [hstep] at h
      have hs := spendInput_shape l b hash txin l1 b1 hstep
      have howned1 : ownedAt l1 p i := ownedAt_congr l l1 hs.1 p i howned
      have hflag := spendInput_flag l b hash txin l1 b1 p i hstep howned
      have hr := ih l1 b1 h howned1
      rw [hr, hflag, List.countP_cons]
      by_cases hc : txin.prevHash = p ∧ txin.index = i
      · simp [hc]
        omega
      · simp [hc]

/-- Effect of the whole debit pass on the spent-by flag of an owned slot:
it gains the total number of consuming inputs across all entries. -/
theorem debits_flag (entries : List (String × Transaction)) (l : Ledger)
    (b : Int) (l2 : Ledger) (b2 : Int) (p : String) (i : Nat)
    (h : debits entries l b = some (l2, b2)) (howned : ownedAt l p i) :
    flagN l2 p i = flagN l p i + consumeCount entries p i := by
  induction entries generalizing l b with
  | nil =>
    simp only [debits, Option.some_inj, Prod.mk.injEq] at h
    rw [← h.1]
    simp [consumeCount]
  | cons entry rest ih =>
    obtain ⟨hash, tx⟩ := entry
    simp only [debits] at h
    cases hstep : spendInputs hash tx.vin l b with
    | none => rw [hstep] at h; exact absurd h (by simp)
    | some st1 =>
      obtain ⟨l1, b1⟩ := st1
      rw [hstep] at h
      have hs := spendInputs_spec hash tx.vin l b l1 b1 hstep
      have howned1 : ownedAt l1 p i := ownedAt_congr l l1 hs.1 p i howned
      have hflag := spendInputs_flag hash tx.vin l b l1 b1 p i hstep howned
      have hr := ih l1 b1 h howned1
      rw [hr, hflag]
      unfold consumeCount
      simp only [List.map_cons, List.sum_cons]
      omega

/-- Claim C4: in a run of the debit pass that terminates without aborting,
every owned output that starts unspent is consumed by at most one input
across all retained transactions — a second consuming input would have
found `spent-by` already set and aborted. -/
theorem no_double_spend (l l2 : Ledger) (b2 : Int) (p : String) (i : Nat)
    (v : Vout)
    (hrun : debits l l (credits l) = some (l2, b2))
    (hout : outAt l p i = some v) (hours : v.ours = true)
    (hunspent : v.spentBy = none) :
    consumeCount l p i ≤ 1 := by
  have howned : ownedAt l p i := ⟨v, hout, hours⟩
  have heq := debits_flag l l (credits l) l2 b2 p i hrun howned
  have h0 : flagN l p i = 0 := by
    unfold flagN spentFlag
    simp [hout, hunspent]
  have hle := flagN_le_one l2 p i
  omega

/-- Witness for C4: in the example ledger the owned output (t1, 0) is
consumed exactly once. -/
theorem no_double_spend_witness : consumeCount exLedger "t1" 0 ≤ 1 :=
  no_double_spend exLedger exLedger2 60 "t1" 0
    { value := 100, address := "s1", ours := true, spentBy := none }
    (by decide) (by decide) rfl rfl

/-- Counterexample to claim C10: a transaction whose raw hex fails to
decode does not necessarily stay empty — the code prints the decode error
without skipping, parses the partially decoded bytes, and here obtains an
owned 7-satoshi output, so the transaction contributes 7 (not 0) to the
credit sum.  (`badParseTx` reproduces `btcutil.NewTxFromBytes`, which
succeeds whenever the bytes decoded before the hex error form a valid
serialized transaction, trailing garbage ignored.) -/
theorem parse_failure_cex :
    (badHexDecode c10tx.hex).2 = false
    ∧ parsePhase ["aa"] badHexDecode badParseTx [("h", c10tx)]
        = [("h", c10parsed)]
    ∧ creditOf c10parsed = 7 := by decide

/-- Claim C10 (amended): a retained transaction whose bytes fail to PARSE
stays in the ledger unchanged — with its empty input and output lists, so
it contributes zero to the credit and debit sums — and the phase never
aborts; a hex-decode failure alone only prints, and the partially decoded
bytes are still parsed. -/
theorem parsePhase_parse_failure (addresses : List String)
    (hexDecode : String → List Nat × Bool)
    (parseTx : List Nat → Option (List Vin × List (Int × String)))
    (l : Ledger) (e : String × Transaction)
    (he : e ∈ l) (hfail : parseTx (hexDecode e.2.hex).1 = none)
    (hvin : e.2.vin = []) (hvout : e.2.vout = []) :
    e ∈ parsePhase addresses hexDecode parseTx l
    ∧ creditOf e.2 = 0
    ∧ (e.2.vin.map (debitOf l)).sum = 0 := by
  refine ⟨?_, ?_, ?_⟩
  · unfold parsePhase
    refine List.mem_map.mpr ⟨e, he, ?_⟩
    simp only [hfail]
  · simp [creditOf, hvout]
  · simp [hvin]

/-- Witness for C10 (amended): with a parser rejecting everything, the
decode-failing transaction stays in the ledger and contributes zero. -/
theorem parsePhase_parse_failure_witness :
    ("h", c10tx) ∈ parsePhase [] badHexDecode rejectParseTx [("h", c10tx)]
    ∧ creditOf c10tx = 0
    ∧ (c10tx.vin.map (debitOf [("h", c10tx)])).sum = 0 :=
  parsePhase_parse_failure [] badHexDecode rejectParseTx
    [("h", c10tx)] ("h", c10tx) (by simp) rfl rfl rfl

/-- Each `recvWork` iteration can only keep or raise a frontier: address
responses take a `Max` with the current value, transaction responses do
not touch `lastAddresses`. -/
theorem frontier_le_recvStep (L : Nat) (s : AState) (e : BackendEvent)
    (c : Bool) :
    frontier s c ≤ frontier (recvStep L s e) c := by
  cases e with
  | addrResp change index script txHashes =>
    by_cases hlen : 0 < txHashes.length
    · cases change <;> cases c <;>
        simp [Accounter.recvStep, Accounter.frontier, hlen,
          Nat.le_max_left]
    · cases c <;> simp [Accounter.recvStep, Accounter.frontier, hlen]
  | txResp hash height hexStr =>
    cases c <;> simp [Accounter.recvStep, Accounter.frontier]

/-- Folding `recvStep` over any response sequence never lowers a
frontier. -/
theorem frontier_le_foldl (L : Nat) (evs : List BackendEvent) (s : AState)
    (c : Bool) :
    frontier s c ≤ frontier (evs.foldl (recvStep L) s) c := by
  induction evs generalizing s with
  | nil => simp
  | cons e rest ih =>
    exact le_trans (frontier_le_recvStep L s e c) (ih _)

/-- Claim C9: throughout every run both per-stream frontiers are
monotonically non-decreasing — they start at the lookahead, never fall
below it, and processing further responses never lowers them. -/
theorem frontiers_monotone (L : Nat) (evs more : List BackendEvent)
    (c : Bool) :
    L ≤ frontier (run L evs) c
    ∧ frontier (run L evs) c ≤ frontier (run L (evs ++ more)) c := by
  constructor
  · have h0 : frontier (initState L) c = L := by
      cases c <;> rfl
    have := frontier_le_foldl L evs (initState L) c
    rwa [h0] at this
  · rw [Accounter.run, Accounter.run, List.foldl_append]
    exact frontier_le_foldl L more _ c

/-- Counterexample to claim C2: with lookahead 100, observing a
transaction for the receive-stream address at index 43 (address response
followed by the transaction response) drives the frontier to
max(100, 43 + 100) = 143, not to 144 as the claim (`i + L + 1`) states. -/
theorem frontier_advance_cex :
    frontier (run 100 c2events) false = 143 ∧ (143 : Nat) ≠ 144 := by
  decide

/-- Claim C2 (amended): the frontier advances on the ADDRESS response (the
one carrying the tx-hash list), not on the transaction response, and by
`frontier[c] := max(frontier[c], i + L)`; a transaction at index 43 with
L = 100 drives the frontier to 143.  Transaction responses leave both
frontiers unchanged, and the other stream is never affected. -/
theorem frontier_advance_amended (L : Nat) (s : AState) (change : Bool)
    (index : Nat) (script : String) (txHashes : List String)
    (hne : txHashes ≠ []) :
    frontier (recvStep L s (.addrResp change index script txHashes)) change
      = Nat.max (frontier s change) (u32 (index + L))
    ∧ frontier (recvStep L s (.addrResp change index script txHashes))
        (!change) = frontier s (!change)
    ∧ (∀ hash height hexStr c,
        frontier (recvStep L s (.txResp hash height hexStr)) c
          = frontier s c) := by
  have hlen : 0 < txHashes.length := List.length_pos.mpr hne
  refine ⟨?_, ?_, ?_⟩
  · cases change <;> simp [Accounter.recvStep, Accounter.frontier, hlen]
  · cases change <;> simp [Accounter.recvStep, Accounter.frontier, hlen]
  · intro hash height hexStr c
    cases c <;> simp [Accounter.recvStep, Accounter.frontier]

/-- The median is insensitive to the order in which the 11 block-header
responses arrive: sorting maps any two permutation-equal response lists to
the same sorted list. -/
theorem searchSync_perm (ts ts2 : List Int) (hp : ts.Perm ts2) :
    searchSync ts = searchSync ts2 := by
  unfold Blockfinder.searchSync
  congr 1
  exact List.eq_of_perm_of_sorted
    (((List.perm_insertionSort _ ts).trans hp).trans
      (List.perm_insertionSort _ ts2).symm)
    (List.sorted_insertionSort _ ts)
    (List.sorted_insertionSort _ ts2)

/-- Claim C6: one median evaluation at height H requests exactly the 11
headers H−5 … H+5, and the returned value is the 6th smallest of the 11
returned timestamps — there is a sorted rearrangement of the responses in
which at least the first six elements are ≤ the result and at least the
last six are ≥ it — independently of the order in which the responses
arrive. -/
theorem searchSync_spec (h : Nat) (h5 : 5 ≤ h) (hlt : h + 5 < 2 ^ 32) :
    searchSyncRequests h = List.range' (h - 5) 11
    ∧ (searchSyncRequests h).length = 11
    ∧ (∀ ts ts2 : List Int, ts.Perm ts2 → searchSync ts = searchSync ts2)
    ∧ (∀ ts : List Int, ts.length = 11 →
        ∃ s : List Int, s.Perm ts ∧ s.Sorted (· ≤ ·) ∧
          (∀ i (hi : i < s.length), i ≤ 5 →
            s.get ⟨i, hi⟩ ≤ searchSync ts) ∧
          (∀ i (hi : i < s.length), 5 ≤ i →
            searchSync ts ≤ s.get ⟨i, hi⟩)) := by
  have hreq : searchSyncRequests h = List.range' (h - 5) 11 := by
    have e1 : (h + 2 ^ 32 - 5) % 2 ^ 32 = h - 5 := by
      have harith : h + 2 ^ 32 - 5 = (h - 5) + 2 ^ 32 := by omega
      rw [harith, Nat.add_mod_right, Nat.mod_eq_of_lt (by omega)]
    have e2 : (h + 5) % 2 ^ 32 = h + 5 := Nat.mod_eq_of_lt hlt
    have e3 : h + 5 + 1 - (h - 5) = 11 := by omega
    simp only [Blockfinder.searchSyncRequests, e1, e2, e3]
  refine ⟨hreq, by rw [hreq]; simp, searchSync_perm, ?_⟩
  intro ts hts
  have hlen : (ts.insertionSort (· ≤ ·)).length = 11 := by
    rw [List.length_insertionSort, hts]
  have h5lt : 5 < (ts.insertionSort (· ≤ ·)).length := by omega
  have hmed : searchSync ts
      = (ts.insertionSort (· ≤ ·)).get ⟨5, h5lt⟩ :=
    List.getD_eq_getElem _ 0 h5lt
  refine ⟨ts.insertionSort (· ≤ ·), List.perm_insertionSort _ ts,
    List.sorted_insertionSort _ ts, ?_, ?_⟩
  · intro i hi hcmp
    rw [hmed]
    exact (List.sorted_insertionSort _ ts).rel_get_of_le
      (Fin.mk_le_mk.mpr hcmp)
  · intro i hi hcmp
    rw [hmed]
    exact (List.sorted_insertionSort _ ts).rel_get_of_le
      (Fin.mk_le_mk.mpr hcmp)

/-- Witness for C6: at height 10 the 11 requested heights are 5 … 15. -/
theorem searchSync_spec_witness :
    searchSyncRequests 10 = List.range' 5 11 :=
  (searchSync_spec 10 (by decide) (by norm_num)).1

/-- Witness for C2 (amended): from the initial state with lookahead 100,
the address response at index 43 advances the receive frontier to
max(100, 143). -/
theorem frontier_advance_amended_witness :
    frontier (recvStep 100 (initState 100)
        (.addrResp false 43 "s" ["h"])) false
      = Nat.max (frontier (initState 100) false) (u32 (43 + 100)) :=
  (frontier_advance_amended 100 (initState 100) false 43 "s" ["h"]
    (by decide)).1

end Beancounter
